import Mathlib

/-!
Verification development for the xuelema unified memory engine.

The definitions below are a shallow embedding of the Python sources:
`.memory/chromadb_storage.py` (similarity index), `.memory/crud_api.py`
(record store), `memory_system/dual_writer.py` together with
`memory_system/unified_api.py` (write coordinator), and
`.memory/core/__init__.py` (file storage, WAL, archiver).

Modelling conventions:
- wall-clock timestamps become a natural-number clock carried in the state;
- `uuid.uuid4()` becomes a fresh-id counter (`nextId`), so minted ids are
  pairwise distinct within a run, which is the only property the code relies on;
- floating-point feature vectors become integer character-count vectors and
  distances become squared Euclidean distances over the integers: the source
  L2-normalizes each vector and compares real Euclidean distances, and the
  square root is monotone, so every order-theoretic statement proved here
  transfers; statements about "Euclidean distance" take the real square root
  of the modelled squared distance;
- Python truthiness of optional string arguments is modelled explicitly:
  an absent filter and an empty-string filter are both inert, as in the source.
-/

namespace Xuelema

/-! ### Generic association-list and sorting helpers -/

/-- Lookup in an association list keyed by strings (first match wins,
mirroring Python dict access for our states, whose keys are unique). -/
def alistGet? (l : List (String × α)) (k : String) : Option α :=
  match l with
  | [] => none
  | (k2, v) :: rest => if k2 = k then some v else alistGet? rest k

/-- Insert-or-replace in an association list (replace in place, else append),
mirroring mutation of an existing Python dict entry / file overwrite. -/
def alistSet (l : List (String × α)) (k : String) (v : α) : List (String × α) :=
  match l with
  | [] => [(k, v)]
  | (k2, w) :: rest => if k2 = k then (k, v) :: rest else (k2, w) :: alistSet rest k v

/-- Insert an element into a list sorted by the boolean relation `le`. -/
def insertLe (le : α → α → Bool) (a : α) : List α → List α
  | [] => [a]
  | b :: l => if le a b then a :: b :: l else b :: insertLe le a l

/-- Stable insertion sort by the boolean relation `le`; stands in for the
sorts performed by `ORDER BY`, `sorted(...)` and `numpy.argsort` in the
source (all claims proved here are insensitive to the tie-breaking order). -/
def insSortBy (le : α → α → Bool) : List α → List α
  | [] => []
  | a :: l => insertLe le a (insSortBy le l)

/-- Does `pat` occur at the head of `text`? -/
def charsHavePre : List Char → List Char → Bool
  | [], _ => true
  | _ :: _, [] => false
  | a :: ps, b :: ts => a == b && charsHavePre ps ts

/-- Does `pat` occur anywhere inside `text`? -/
def charsHaveSub (pat : List Char) : List Char → Bool
  | [] => charsHavePre pat []
  | b :: ts => charsHavePre pat (b :: ts) || charsHaveSub pat ts

/-- Tests whether `pat` is a prefix of `s` (kernel-reducible form of the builtin test). -/
def strStarts (s pat : String) : Bool := charsHavePre pat.toList s.toList

/-- Tests whether `pat` is a suffix of `s` (kernel-reducible form of the builtin test). -/
def strEnds (s pat : String) : Bool := charsHavePre pat.toList.reverse s.toList.reverse

theorem insertLe_perm (le : α → α → Bool) (a : α) (l : List α) :
    List.Perm (insertLe le a l) (a :: l) := by
  induction l with
  | nil => simp [insertLe]
  | cons b l ih =>
    simp only [insertLe]
    split
    · exact List.Perm.refl _
    · exact (List.Perm.cons b ih).trans (List.Perm.swap a b l)

theorem insSortBy_perm (le : α → α → Bool) (l : List α) :
    List.Perm (insSortBy le l) l := by
  induction l with
  | nil => exact List.Perm.refl _
  | cons a l ih =>
    exact (insertLe_perm le a (insSortBy le l)).trans (List.Perm.cons a ih)

theorem mem_insertLe {le : α → α → Bool} {a x : α} {l : List α} :
    x ∈ insertLe le a l ↔ x = a ∨ x ∈ l := by
  constructor
  · intro h
    have := (insertLe_perm le a l).mem_iff.mp h
    simpa using this
  · intro h
    apply (insertLe_perm le a l).mem_iff.mpr
    simpa using h

theorem mem_insSortBy {le : α → α → Bool} {x : α} {l : List α} :
    x ∈ insSortBy le l ↔ x ∈ l :=
  (insSortBy_perm le l).mem_iff

theorem insertLe_pairwise {le : α → α → Bool}
    (total : ∀ a b, le a b = true ∨ le b a = true)
    (trans : ∀ a b c, le a b = true → le b c = true → le a c = true)
    (a : α) {l : List α}
    (h : l.Pairwise (fun x y => le x y = true)) :
    (insertLe le a l).Pairwise (fun x y => le x y = true) := by
  induction l with
  | nil => simp [insertLe]
  | cons b l ih =>
    rcases h with _ | ⟨hb, hl⟩
    simp only [insertLe]
    split
    · rename_i hab
      refine List.Pairwise.cons ?_ (List.Pairwise.cons hb hl)
      intro x hx
      rcases List.mem_cons.mp hx with rfl | hx
      · exact hab
      · exact trans a b x hab (hb x hx)
    · rename_i hab
      have hba : le b a = true := by
        rcases total a b with h1 | h1
        · exact absurd h1 hab
        · exact h1
      refine List.Pairwise.cons ?_ (ih hl)
      intro x hx
      rcases mem_insertLe.mp hx with rfl | hx
      · exact hba
      · exact hb x hx

theorem insSortBy_pairwise {le : α → α → Bool}
    (total : ∀ a b, le a b = true ∨ le b a = true)
    (trans : ∀ a b c, le a b = true → le b c = true → le a c = true)
    (l : List α) :
    (insSortBy le l).Pairwise (fun x y => le x y = true) := by
  induction l with
  | nil => simp [insSortBy]
  | cons a l ih => exact insertLe_pairwise total trans a ih

theorem insSortBy_countP (le : α → α → Bool) (p : α → Bool) (l : List α) :
    (insSortBy le l).countP p = l.countP p :=
  (insSortBy_perm le l).countP_eq p

/-! ### Similarity index — `.memory/chromadb_storage.py`, class `VectorStorage`

A collection is a quadruple of parallel lists (`ids`, `documents`,
`metadatas`, `vectors`), exactly as the Python dict-of-lists.  Metadata is
modelled as a string association list (the claims never inspect values other
than strings).  The placeholder embedding `_text_to_vector` counts the first
256 characters of the lowercased text into 256 buckets by character code
modulo 256; the source then divides by the L2 norm, a positive per-vector
scalar that is not rational-representable — the model keeps the integer
counts, and distances are squared Euclidean distances, which is harmless for
every order-theoretic statement proved below (the real distance is the
monotone square root). -/

/-- Character-count feature vector of `_text_to_vector` (unnormalized). -/
def charFreqVector (text : String) : List Int :=
  (List.range 256).map
    (fun i => ((text.toLower.toList.take 256).countP (fun c => c.toNat % 256 == i) : Int))

/-- Squared Euclidean distance between two vectors. -/
def distSq (v w : List Int) : Int :=
  (List.zipWith (fun a b => (a - b) ^ 2) v w).sum

/-- One collection of the vector store: four parallel lists. -/
structure Coll where
  ids : List String
  documents : List String
  metadatas : List (List (String × String))
  vectors : List (List Int)
deriving Repr, DecidableEq

def Coll.empty : Coll := ⟨[], [], [], []⟩

/-- The collections dict (`VectorStorage.collections`). -/
def Colls := List (String × Coll)

instance : DecidableEq Colls := by unfold Colls; infer_instance

/-- Model of `VectorStorage.__init__`: three pre-created empty collections. -/
def Colls.init : Colls :=
  [("memories", Coll.empty), ("conversations", Coll.empty), ("knowledge", Coll.empty)]

/-- Model of `VectorStorage.add`: create the collection if missing, then append the
entry (the document's feature vector is computed on insertion). -/
def vectorAdd (cs : Colls) (collection docId document : String)
    (metadata : List (String × String)) : Colls :=
  let c := (alistGet? cs collection).getD Coll.empty
  let c2 : Coll :=
    { ids := c.ids ++ [docId]
      documents := c.documents ++ [document]
      metadatas := c.metadatas ++ [metadata]
      vectors := c.vectors ++ [charFreqVector document] }
  alistSet cs collection c2

/-- Model of `VectorStorage.delete`: if the collection exists and contains `docId`,
remove the entry at its first index from all four parallel lists. -/
def vectorDelete (cs : Colls) (collection docId : String) : Colls :=
  match alistGet? cs collection with
  | none => cs
  | some c =>
    match c.ids.findIdx? (fun i => i == docId) with
    | none => cs
    | some idx =>
      alistSet cs collection
        { ids := c.ids.eraseIdx idx
          documents := c.documents.eraseIdx idx
          metadatas := c.metadatas.eraseIdx idx
          vectors := c.vectors.eraseIdx idx }

/-- Result dict of `VectorStorage.search`. -/
structure VSearchRes where
  ids : List String
  documents : List String
  metadatas : List (List (String × String))
  distances : List Int
deriving Repr, DecidableEq

/-- The `numpy.argsort(distances)[:n]` step: pair each index with its
distance, sort by distance ascending, keep the first `n` pairs. -/
def argsortTake (ds : List Int) (n : Nat) : List (Nat × Int) :=
  (insSortBy (fun a b => decide (a.2 ≤ b.2)) (List.zip (List.range ds.length) ds)).take n

/-- Model of `VectorStorage.search`: `None` for a missing collection or an empty
vector list; otherwise rank all entries by distance to the query's feature
vector and return the top `n` as parallel lists. -/
def vectorSearch (cs : Colls) (collection query : String) (nResults : Nat) :
    Option VSearchRes :=
  match alistGet? cs collection with
  | none => none
  | some c =>
    if c.vectors = [] then none
    else
      let qv := charFreqVector query
      let ds := c.vectors.map (fun v => distSq v qv)
      let top := argsortTake ds nResults
      some
        { ids := top.map (fun p => c.ids.getD p.1 "")
          documents := top.map (fun p => c.documents.getD p.1 "")
          metadatas := top.map (fun p => c.metadatas.getD p.1 [])
          distances := top.map (fun p => p.2) }

/-! ### Record store — `.memory/crud_api.py`, class `MemoryStorage`

The SQLite `memories` table becomes a list of rows; `INSERT OR REPLACE`
removes any row conflicting on the `id` primary key or the `key` unique
column before appending the new row.  The `tags` table becomes a list of
`(memory_id, tag)` pairs with `INSERT OR IGNORE` semantics.  Timestamps are
a natural-number clock in the state (ISO wall-clock strings compare
chronologically, so ordering is preserved); `uuid.uuid4()` is a fresh-id
counter rendered as a decimal string. -/

/-- One row of the `memories` table (tags and metadata are stored as JSON
text in SQLite and parsed back on load; the model keeps them structured,
which composes the two inverse serializations away). -/
structure Mem where
  id : String
  key : String
  value : String
  memoryType : String
  tags : List String
  metadata : List (String × String)
  createdAt : Nat
  updatedAt : Nat
deriving Repr, DecidableEq

/-- Full state of a `MemoryStorage` instance: SQLite tables, the embedded
`VectorStorage`, the uuid source and the clock. -/
structure Store where
  mems : List Mem
  tagRows : List (String × String)
  colls : Colls
  nextId : Nat
  clock : Nat
deriving DecidableEq

def Store.empty : Store :=
  { mems := [], tagRows := [], colls := Colls.init, nextId := 0, clock := 0 }

/-- Python truthiness of an optional string argument: `None` and the empty
string are both falsy, so an empty-string filter is inert in the source. -/
def truthyStr : Option String → Bool
  | none => false
  | some s => s ≠ ""

/-- The `key`/`id`/`memory_type` WHERE clauses shared by `load` and
`_internal_delete`: each filter is applied only when its argument is truthy. -/
def matchesKIT (m : Mem) (key memoryId memoryType : Option String) : Bool :=
  (if truthyStr key then m.key == key.getD "" else true) &&
  (if truthyStr memoryId then m.id == memoryId.getD "" else true) &&
  (if truthyStr memoryType then m.memoryType == memoryType.getD "" else true)

/-- Model of `ORDER BY updated_at DESC`: stable sort, newest first. -/
def sortByUpdatedDesc (l : List Mem) : List Mem :=
  insSortBy (fun a b => decide (b.updatedAt ≤ a.updatedAt)) l

/-- Model of `MemoryStorage._internal_save`: mints a fresh id, `INSERT OR REPLACE`s
the row, `INSERT OR IGNORE`s the tag pairs, and adds the document
`key ++ ": " ++ value[:500]` to the "memories" vector collection.  The
vector metadata of the source also carries the tag list; no claim reads it,
so the model keeps the string-valued part. -/
def internalSave (s : Store) (key value : String) (tags : List String)
    (memoryType : String) (metadata : List (String × String)) : Store × String :=
  let memoryId := toString s.nextId
  let timestamp := s.clock
  let row : Mem :=
    { id := memoryId, key := key, value := value, memoryType := memoryType
      tags := tags, metadata := metadata, createdAt := timestamp, updatedAt := timestamp }
  let mems := (s.mems.filter (fun m => m.id ≠ memoryId && m.key ≠ key)) ++ [row]
  let tagRows := tags.foldl
    (fun acc t => if (memoryId, t) ∈ acc then acc else acc ++ [(memoryId, t)]) s.tagRows
  let document := key ++ ": " ++ value.take 500
  let vmeta := [("key", key), ("type", memoryType)] ++ metadata
  let colls := vectorAdd s.colls "memories" memoryId document vmeta
  ({ mems := mems, tagRows := tagRows, colls := colls,
     nextId := s.nextId + 1, clock := s.clock + 1 }, memoryId)

/-- Model of `MemoryStorage.load`: SQL filters on key/id/type are ANDed, rows are
ordered by `updated_at` descending and truncated to `limit` — and only
*then* does the Python code filter by tags (`all(t in r["tags"] ...)`). -/
def load (s : Store) (key memoryId memoryType : Option String)
    (tags : List String) (limit : Nat) : List Mem :=
  let rows := s.mems.filter (fun m => matchesKIT m key memoryId memoryType)
  let rows := (sortByUpdatedDesc rows).take limit
  if tags.isEmpty then rows
  else rows.filter (fun m => tags.all (fun t => m.tags.contains t))

/-- Model of `MemoryStorage._internal_delete`: resolves the SELECT — whose WHERE
clause uses only `key`, `memory_id` and `memory_type`; the `tags` argument
is accepted but never referenced — then deletes the vector entries, the tag
rows and the record rows for the resolved ids and returns their count. -/
def internalDelete (s : Store) (key memoryId memoryType : Option String)
    (tags : List String) : Store × Nat :=
  let toDelete := s.mems.filter (fun m => matchesKIT m key memoryId memoryType)
  if toDelete.isEmpty then (s, 0)
  else
    let ids := toDelete.map (fun m => m.id)
    let colls := ids.foldl (fun cs i => vectorDelete cs "memories" i) s.colls
    let tagRows := s.tagRows.filter (fun p => ¬ ids.contains p.1)
    let mems := s.mems.filter (fun m => ¬ ids.contains m.id)
    ({ s with mems := mems, tagRows := tagRows, colls := colls }, ids.length)

/-! ### Search — `MemoryStorage.search`

`SearchMode` has the three members of the Python enum.  SQL `LIKE
'%pat%'` is a case-insensitive substring test for ASCII, modelled by an
explicit substring scan over the lowercased characters.  The `similarity`
float attached to each result is modelled over `ℚ`; for semantic results it
is computed from the modelled (squared) distance, which only permutes the
values monotonically and is irrelevant to the membership facts proved. -/

inductive SMode
  | exact
  | semantic
  | hybrid
deriving Repr, DecidableEq

/-- SQL `field LIKE '%pat%'` (ASCII case-insensitive). -/
def sqlLike (field pat : String) : Bool :=
  charsHaveSub pat.toLower.toList field.toLower.toList

/-- The SQL branch of `search` (EXACT mode, or HYBRID without a query). -/
def searchExactRows (s : Store) (query key memoryType : Option String)
    (limit : Nat) : List Mem :=
  let rows := s.mems.filter (fun m =>
    (if truthyStr key then sqlLike m.key (key.getD "") else true) &&
    (if truthyStr query then
        sqlLike m.value (query.getD "") || sqlLike m.key (query.getD "")
      else true) &&
    (if truthyStr memoryType then m.memoryType == memoryType.getD "" else true))
  (sortByUpdatedDesc rows).take limit

/-- The per-hit body of the semantic branch: convert distance to a
similarity, load the full record by id, and append it unless an already
collected result has the same id. -/
def searchSemanticFold (s : Store) (pairs : List (String × Int))
    (acc : List (Mem × ℚ)) : List (Mem × ℚ) :=
  pairs.foldl
    (fun acc p =>
      let sim : ℚ := max 0 (1 - (p.2 : ℚ) / 2)
      match load s none (some p.1) none [] 1 with
      | [] => acc
      | r :: _ => if acc.any (fun q => q.1.id == r.id) then acc else acc ++ [(r, sim)])
    acc

/-- Model of `MemoryStorage.search`: SQL branch, then semantic branch with
deduplication, then the tag filter, the hybrid sort by similarity
descending, and the final `[:limit]` truncation. -/
def search (s : Store) (query key : Option String) (tags : List String)
    (memoryType : Option String) (mode : SMode) (limit : Nat) : List (Mem × ℚ) :=
  let results : List (Mem × ℚ) :=
    if mode = SMode.exact ∨ (mode = SMode.hybrid ∧ query = none) then
      (searchExactRows s query key memoryType limit).map (fun m => (m, (1 : ℚ)))
    else []
  let results :=
    if (mode = SMode.semantic ∨ mode = SMode.hybrid) ∧ truthyStr query then
      match vectorSearch s.colls "memories" (query.getD "") limit with
      | none => results
      | some vr => searchSemanticFold s (vr.ids.zip vr.distances) results
    else results
  let results :=
    if tags.isEmpty then results
    else results.filter (fun r => tags.all (fun t => r.1.tags.contains t))
  let results :=
    if mode = SMode.hybrid ∧ truthyStr query then
      insSortBy (fun a b => decide (b.2 ≤ a.2)) results
    else results
  results.take limit

/-! ### Write coordinator — `memory_system/dual_writer.py` with
`memory_system/unified_api.py`

A `World` carries the shared `MemoryStorage` state and the plain-text
mirror file (a list of appended blocks; the wall-clock timestamp and date
in the markdown header are abstracted away).  Each backend stage of
`DualWriter._write_sync` wraps its whole body in `try/except Exception:
return False`, so a stage failure — injected here through a `Faults`
record, standing for any `Exception`-level error the underlying store
raises — is swallowed and reported as `False`; the coordinator itself has
no handler and would propagate an uncaught exception, hence the `Except`
result type, which the definitions always fill with `Except.ok`. -/

def validMemoryTypes : List String :=
  ["conversation", "knowledge", "goal", "task", "decision", "custom"]

structure World where
  store : Store
  mirror : List String
deriving DecidableEq

def World.empty : World := { store := Store.empty, mirror := [] }

/-- Model of `UnifiedMemory._format_for_file` (timestamp abstracted). -/
def formatForFile (key value memoryType : String) (tags : List String) : String :=
  "---" ++ "\nkey: " ++ key ++ "\ntype: " ++ memoryType ++ "\ntags: " ++
    String.intercalate ", " tags ++ "\n---\n\n## " ++ key ++ "\n\n" ++ value ++ "\n"

/-- Model of `UnifiedMemory.save`: store save plus optional mirror append. -/
def umSave (w : World) (key value memoryType : String) (tags : List String)
    (metadata : List (String × String)) (syncFile : Bool) : World × String :=
  let r := internalSave w.store key value tags memoryType metadata
  let mirror := if syncFile then w.mirror ++ [formatForFile key value memoryType tags]
    else w.mirror
  ({ store := r.1, mirror := mirror }, r.2)

structure WData where
  key : String
  value : String
  memoryType : String
  tags : List String
  metadata : List (String × String)
deriving Repr, DecidableEq

structure Backends where
  sqlite : Bool
  vector : Bool
  file : Bool
deriving Repr, DecidableEq

/-- Injected stage failures: `some msg` makes the corresponding backend
call raise, `none` lets it run normally. -/
structure Faults where
  sqlite : Option String
  vector : Option String
  file : Option String
deriving Repr, DecidableEq

def Faults.clear : Faults := ⟨none, none, none⟩

/-- Model of `DualWriter._write_sqlite`: validates the memory type (falling back to
CUSTOM), performs the unified save (with `sync_file=False`) or the delete
by key, and converts any raised exception into `False`. -/
def writeSqlite (fault : Option String) (operation : String) (d : WData)
    (w : World) : World × Bool :=
  match fault with
  | some _ => (w, false)
  | none =>
    if operation == "save" then
      let mt := if validMemoryTypes.contains d.memoryType then d.memoryType else "custom"
      let r := umSave w d.key d.value mt d.tags d.metadata false
      (r.1, r.2 != "")
    else if operation == "delete" then
      let r := internalDelete w.store (some d.key) none none []
      ({ w with store := r.1 }, decide (0 < r.2))
    else (w, true)

/-- Model of `DualWriter._write_vector`: both operation bodies are `pass` (the
vector write is already performed by the unified save); only a raised
exception is converted into `False`. -/
def writeVector (fault : Option String) (_operation : String) (_d : WData)
    (w : World) : World × Bool :=
  match fault with
  | some _ => (w, false)
  | none => (w, true)

/-- Model of `DualWriter._write_file`: appends the formatted block on save; the
delete path calls the `_delete_from_file` stub, a no-op. -/
def writeFile (fault : Option String) (operation : String) (d : WData)
    (w : World) : World × Bool :=
  match fault with
  | some _ => (w, false)
  | none =>
    if operation == "save" then
      ({ w with mirror := w.mirror ++ [formatForFile d.key d.value d.memoryType d.tags] }, true)
    else (w, true)

/-- Per-stage results dict of `_write_sync`; `none` marks a stage skipped
because its backend is disabled. -/
structure WResults where
  sqlite : Option Bool
  vector : Option Bool
  file : Option Bool
deriving Repr, DecidableEq

/-- Model of `DualWriter._write_sync`: runs the enabled stages in order.  The
coordinator installs no exception handler of its own, so a stage exception
would escape to the caller — but every stage catches all exceptions
internally, so the fan-out always returns normally. -/
def writeSync (faults : Faults) (b : Backends) (operation : String) (d : WData)
    (w : World) : Except String (World × WResults) :=
  let p1 := if b.sqlite then
      let r := writeSqlite faults.sqlite operation d w
      (r.1, some r.2)
    else (w, none)
  let p2 := if b.vector then
      let r := writeVector faults.vector operation d p1.1
      (r.1, some r.2)
    else (p1.1, none)
  let p3 := if b.file then
      let r := writeFile faults.file operation d p2.1
      (r.1, some r.2)
    else (p2.1, none)
  Except.ok (p3.1, { sqlite := p1.2, vector := p2.2, file := p3.2 })

/-! ### File storage, WAL and archiver — `.memory/core/__init__.py`

`StorageModule` over its root directory is a map from relative path to file
payload.  `StorageModule.save` also stamps a `_meta` object (wall-clock
`updated_at` plus a checksum derived from the data) into dict payloads;
the stamp is a function of the payload and the clock only and is abstracted
away here: equality of stores means equality of the stored payloads. -/

def FS := String → Option String

def FS.empty : FS := fun _ => none

/-- Model of `StorageModule.save`: overwrite the file at `path`. -/
def fsSave (fs : FS) (path data : String) : FS :=
  fun q => if q = path then some data else fs q

/-- Model of `StorageModule.delete`: remove the file at `path` if present. -/
def fsDelete (fs : FS) (path : String) : FS :=
  fun q => if q = path then none else fs q

/-- One WAL entry as parsed from an entry file (`seq` and `timestamp`
fields are ignored by `_apply_operation` and omitted). -/
structure WEntry where
  op : String
  path : Option String
  data : Option String
deriving Repr, DecidableEq

/-- One file of the WAL directory: its name, its parse as a WAL entry
(`none` for corrupt/unreadable/non-entry content) and its raw text (used
for the sequence-counter file). -/
structure WalFile where
  name : String
  entry : Option WEntry
  raw : String
deriving Repr, DecidableEq

/-- Create-or-overwrite a file in the WAL directory. -/
def walWrite (dir : List WalFile) (f : WalFile) : List WalFile :=
  match dir with
  | [] => [f]
  | g :: rest => if g.name = f.name then f :: rest else g :: walWrite rest f

/-- State of a `WALHandler` instance: the in-memory `_sequence` counter and
the WAL directory. -/
structure WalState where
  sequence : Nat
  dir : List WalFile
deriving DecidableEq

def WalState.empty : WalState := { sequence := 0, dir := [] }

/-- Zero-padding of `_get_next_seq`'s `%03d` format. -/
def pad3 (n : Nat) : String :=
  if n < 10 then "00" ++ toString n
  else if n < 100 then "0" ++ toString n
  else toString n

/-- Model of `WALHandler._get_next_seq`: current date plus the padded counter. -/
def seqString (date : String) (n : Nat) : String := date ++ "_" ++ pad3 n

/-- Model of `WALHandler.log`: bump the counter, write the entry file named by the
composite sequence id, persist the counter into `_sequence.txt`.  The
Python function has no `return` statement, so its value is `None`,
modelled as the second component `none`. -/
def walLog (s : WalState) (date operation : String) (path data : Option String) :
    WalState × Option String :=
  let seq := s.sequence + 1
  let sid := seqString date seq
  let dir1 := walWrite s.dir { name := sid ++ ".log", entry := some ⟨operation, path, data⟩, raw := "" }
  let dir2 := walWrite dir1 { name := "_sequence.txt", entry := none, raw := toString seq }
  ({ sequence := seq, dir := dir2 }, none)

/-- Model of `WALHandler._apply_operation` followed by the store call, with the
Python truthiness tests on `data` and `path`. -/
def applyOperation (fs : FS) (e : WEntry) : FS :=
  if e.op == "CREATE" || e.op == "UPDATE" then
    if truthyStr e.data && truthyStr e.path then
      fsSave fs (e.path.getD "") (e.data.getD "") else fs
  else if e.op == "DELETE" then
    if truthyStr e.path then fsDelete fs (e.path.getD "") else fs
  else fs

/-- Lexicographic order on character lists (the order `sorted(...)` uses on
file names). -/
def strLeChars : List Char → List Char → Bool
  | [], _ => true
  | _ :: _, [] => false
  | a :: as, b :: bs => if a = b then strLeChars as bs else decide (a.toNat < b.toNat)

def nameLe (a b : WalFile) : Bool := strLeChars a.name.toList b.name.toList

def isLogName (n : String) : Bool := strEnds n ".log"

/-- The body of the replay loop: skip underscore-named files, skip (but
still count nothing for) corrupt entries, apply parseable ones. -/
def replayStep (acc : FS × Nat) (f : WalFile) : FS × Nat :=
  if strStarts f.name "_" then acc
  else match f.entry with
    | some e => (applyOperation acc.1 e, acc.2 + 1)
    | none => acc

/-- Model of `WALHandler.replay`: apply all `*.log` files in name order, then unlink
every `*.log` file not starting with an underscore (including corrupt
ones), and return the count of applied entries. -/
def walReplay (s : WalState) (fs : FS) : WalState × FS × Nat :=
  let logs := insSortBy nameLe (s.dir.filter (fun f => isLogName f.name))
  let r := logs.foldl replayStep (fs, 0)
  let dir2 := s.dir.filter (fun f => !(isLogName f.name && !strStarts f.name "_"))
  ({ s with dir := dir2 }, r.1, r.2)

/-- A file of the archiver's data tree, with path relative to `data_dir`. -/
structure AFile where
  path : String
  size : Nat
  mtime : Nat
deriving Repr, DecidableEq

/-- The files `Archiver.cleanup` considers deletable:
`(data_dir / "conversations" / "raw").rglob("*.json")`. -/
def isConvRawJson (p : String) : Bool :=
  strStarts p "conversations/raw/" && strEnds p ".json"

structure CleanupReport where
  deletedFiles : Nat
  freedSpace : Nat
  oldestFile : Option String
deriving Repr, DecidableEq

/-- The deletion loop of `Archiver.cleanup`: each file is unlinked and
accounted, then the loop breaks if `total_size` is below 90% of the
budget — but `total_size` is the value computed before the loop and is
never updated, exactly as in the source.  The budget is taken in bytes;
the Python comparisons `total_size/(1024**3) < max_size_gb` and
`... < max_size_gb*0.9` become `totalSize < maxBytes` and
`10*totalSize < 9*maxBytes` (exact for realistic sizes). -/
def cleanupLoop (totalSize maxBytes : Nat) : List AFile → List AFile
  | [] => []
  | f :: rest =>
    if 10 * totalSize < 9 * maxBytes then [f]
    else f :: cleanupLoop totalSize maxBytes rest

/-- Model of `Archiver.cleanup`: no-op below the budget, otherwise delete the
deletable files oldest-first through `cleanupLoop` and report the count,
the freed bytes and the oldest deletable file. -/
def cleanup (files : List AFile) (maxBytes : Nat) : List AFile × CleanupReport :=
  let totalSize := (files.map (fun f => f.size)).sum
  if totalSize < maxBytes then (files, ⟨0, 0, none⟩)
  else
    let oldFiles := insSortBy (fun a b => decide (a.mtime ≤ b.mtime))
      (files.filter (fun f => isConvRawJson f.path))
    let deleted := cleanupLoop totalSize maxBytes oldFiles
    let remaining := files.filter (fun f => decide (f ∉ deleted))
    (remaining,
      { deletedFiles := deleted.length
        freedSpace := (deleted.map (fun f => f.size)).sum
        oldestFile := oldFiles.head?.map (fun f => f.path) })

/-! ### Supporting lemmas -/

theorem toDigitsCore_length_le (b f n : Nat) (ds : List Char) :
    ds.length ≤ (Nat.toDigitsCore b f n ds).length := by
  induction f generalizing n ds with
  | zero => simp [Nat.toDigitsCore]
  | succ f ih =>
    simp only [Nat.toDigitsCore]
    split
    · simp
    · calc ds.length ≤ (Nat.digitChar (n % b) :: ds).length := by simp
        _ ≤ _ := ih _ _

/-- The decimal rendering of a natural number is never the empty string
(the model's stand-in for the fact that `uuid4` strings are non-empty,
hence truthy). -/
theorem natToStringNeEmpty (n : Nat) : toString n ≠ "" := by
  intro h
  have h2 : (toString n).data = [] := by rw [h]
  have h4 : (Nat.toDigits 10 n).length = 0 := by
    have h3 : toString n = (Nat.toDigits 10 n).asString := rfl
    have := congrArg List.length h2
    simpa [h3, List.asString] using this
  have h5 : 1 ≤ (Nat.toDigits 10 n).length := by
    unfold Nat.toDigits
    simp only [Nat.toDigitsCore]
    split
    · simp
    · calc 1 = ([Nat.digitChar (n % 10)] : List Char).length := by simp
        _ ≤ _ := toDigitsCore_length_le _ _ _ _
  omega

theorem sortByUpdatedDesc_pairwise (l : List Mem) :
    (sortByUpdatedDesc l).Pairwise (fun a b => b.updatedAt ≤ a.updatedAt) := by
  have h := @insSortBy_pairwise Mem
    (fun a b : Mem => decide (b.updatedAt ≤ a.updatedAt))
    (fun a b => by
      rcases Nat.le_total b.updatedAt a.updatedAt with h | h
      · exact Or.inl (decide_eq_true h)
      · exact Or.inr (decide_eq_true h))
    (fun a b c h1 h2 =>
      decide_eq_true (Nat.le_trans (of_decide_eq_true h2) (of_decide_eq_true h1)))
    l
  exact h.imp (fun h => of_decide_eq_true h)

theorem mem_sortByUpdatedDesc {m : Mem} {l : List Mem} :
    m ∈ sortByUpdatedDesc l ↔ m ∈ l :=
  mem_insSortBy

theorem alistGet_alistSet_self (l : List (String × α)) (k : String) (v : α) :
    alistGet? (alistSet l k v) k = some v := by
  induction l with
  | nil => simp [alistSet, alistGet?]
  | cons p rest ih =>
    obtain ⟨k2, w⟩ := p
    simp only [alistSet]
    split
    · simp [alistGet?]
    · simpa [alistGet?, *] using ih

theorem vectorAdd_ids (cs : Colls) (collection docId document : String)
    (metadata : List (String × String)) :
    ((alistGet? (vectorAdd cs collection docId document metadata) collection).getD
        Coll.empty).ids =
      ((alistGet? cs collection).getD Coll.empty).ids ++ [docId] := by
  unfold vectorAdd
  rw [alistGet_alistSet_self]
  rfl

/-- After `_internal_save`, a load by the saved key returns exactly the new
row: the insert-or-replace removed every row conflicting on the key, and
the new row matches the key filter. -/
theorem load_key_after_internalSave (s : Store) (key value memoryType : String)
    (tags : List String) (metadata : List (String × String)) (hkey : key ≠ "") :
    load (internalSave s key value tags memoryType metadata).1 (some key) none none [] 100 =
      [({ id := toString s.nextId, key := key, value := value, memoryType := memoryType,
          tags := tags, metadata := metadata, createdAt := s.clock,
          updatedAt := s.clock } : Mem)] := by
  have htk : truthyStr (some key) = true := by simp [truthyStr, hkey]
  set row : Mem :=
    { id := toString s.nextId, key := key, value := value, memoryType := memoryType,
      tags := tags, metadata := metadata, createdAt := s.clock, updatedAt := s.clock }
    with hrow
  have hmems : (internalSave s key value tags memoryType metadata).1.mems =
      (s.mems.filter fun m : Mem => m.id ≠ toString s.nextId && m.key ≠ key) ++ [row] := rfl
  unfold load
  rw [hmems, List.filter_append]
  have h1 : (s.mems.filter fun m : Mem => m.id ≠ toString s.nextId && m.key ≠ key).filter
      (fun m => matchesKIT m (some key) none none) = [] := by
    rw [List.filter_eq_nil_iff]
    intro m hm
    have h2 := (List.mem_filter.mp hm).2
    simp only [Bool.and_eq_true, decide_eq_true_eq] at h2
    simp [matchesKIT, htk, h2.2]
  rw [h1]
  have h3 : List.filter (fun m => matchesKIT m (some key) none none) [row] = [row] := by
    simp [matchesKIT, htk, truthyStr, hrow]
  rw [List.nil_append, h3]
  simp [sortByUpdatedDesc, insSortBy, insertLe]

/-! ### Claim theorems -/

/-- Failing input for C1: a store holding one record tagged "important" and
one untagged record, built by two saves from the empty store. -/
def exC1store : Store :=
  (internalSave (internalSave Store.empty "goal:2026-Q1" "Ship v1" ["important"] "goal" []).1
    "note:misc" "hello" [] "custom" []).1

/-- C1: the claim says `delete(tags=T)` deletes exactly the records whose
tag set is a superset of `T` and returns their count.  The code is wrong:
`_internal_delete` accepts `tags` but never references it when building the
WHERE clause (its own docstring promises tag-AND deletion), so the delete is
entirely independent of the `tags` argument; with only a tag filter it
deletes every record.  On the failing input (one record tagged "important",
one untagged), `delete(tags=["important"])` returns 2 and removes both
records, where the claim requires 1. -/
theorem claim_c1_code_bug :
    (∀ (s : Store) (key memoryId memoryType : Option String) (t1 t2 : List String),
        internalDelete s key memoryId memoryType t1 =
          internalDelete s key memoryId memoryType t2) ∧
    exC1store.mems.countP (fun m => m.tags.contains "important") = 1 ∧
    exC1store.mems.length = 2 ∧
    (internalDelete exC1store none none none ["important"]).2 = 2 ∧
    (internalDelete exC1store none none none ["important"]).1.mems = [] ∧
    load (internalDelete exC1store none none none ["important"]).1
      (some "note:misc") none none [] 100 = [] := by
  refine ⟨fun s key memoryId memoryType t1 t2 => rfl, ?_, ?_, ?_, ?_, ?_⟩ <;> decide

/-- First save for the C3 counterexample. -/
def exC3a : Store × String :=
  internalSave Store.empty "test:update" "orig" ["test"] "custom" []

/-- Second save, same key, for the C3 counterexample. -/
def exC3b : Store × String :=
  internalSave exC3a.1 "test:update" "upd" ["test"] "custom" []

/-- C3 counterexample: saving the same key twice mints a different id each
time — the id returned by the second save differs from the first, and the
record stored under the key afterwards carries the new id, so an id is not
immutable and a save by existing key does not keep the record's id. -/
theorem claim_c3_counterexample :
    exC3a.2 = "0" ∧ exC3b.2 = "1" ∧ exC3b.2 ≠ exC3a.2 ∧
    (exC3b.1.mems.map (fun m => m.id)) = ["1"] := by
  decide

/-- C3 (amended): a save on an existing key overwrites value, tags and
metadata and sets `updated_at` to the save's timestamp, and the key stays
unique among stored records — but the record's id is NOT kept: every save
mints a fresh id (`INSERT OR REPLACE` replaces the whole row), so the id
stored under the key after the save differs from every previously stored
id, and the previous id is orphaned. -/
theorem claim_c3_amended (s : Store) (key value memoryType : String)
    (tags : List String) (metadata : List (String × String))
    (hfresh : ∀ m ∈ s.mems, m.id ≠ toString s.nextId)
    (huniq : s.mems.Pairwise (fun a b => a.key ≠ b.key)) :
    (internalSave s key value tags memoryType metadata).1.mems.filter
        (fun m => m.key == key) =
      [{ id := toString s.nextId, key := key, value := value,
         memoryType := memoryType, tags := tags, metadata := metadata,
         createdAt := s.clock, updatedAt := s.clock }] ∧
    (internalSave s key value tags memoryType metadata).2 = toString s.nextId ∧
    (∀ m ∈ s.mems, m.id ≠ (internalSave s key value tags memoryType metadata).2) ∧
    (internalSave s key value tags memoryType metadata).1.mems.Pairwise
      (fun a b => a.key ≠ b.key) := by
  constructor
  · show ((s.mems.filter fun m : Mem => m.id ≠ toString s.nextId && m.key ≠ key) ++ [_]).filter
        (fun m : Mem => m.key == key) = _
    rw [List.filter_append]
    have h1 : (s.mems.filter fun m : Mem => m.id ≠ toString s.nextId && m.key ≠ key).filter
        (fun m : Mem => m.key == key) = [] := by
      rw [List.filter_eq_nil_iff]
      intro m hm
      have := (List.mem_filter.mp hm).2
      simp only [Bool.and_eq_true, decide_eq_true_eq] at this
      simp [this.2]
    rw [h1]
    simp
  refine ⟨rfl, ?_, ?_⟩
  · intro m hm
    exact hfresh m hm
  · show ((s.mems.filter fun m : Mem => m.id ≠ toString s.nextId && m.key ≠ key) ++ [_]).Pairwise _
    rw [List.pairwise_append]
    refine ⟨huniq.sublist (List.filter_sublist _), by simp, ?_⟩
    intro a ha b hb
    have := (List.mem_filter.mp ha).2
    simp only [Bool.and_eq_true, decide_eq_true_eq] at this
    simp only [List.mem_singleton] at hb
    subst hb
    exact this.2

/-- C3 witness: the amended statement applied to the single-record store
produced by the first example save. -/
theorem claim_c3_witness :
    (internalSave exC3a.1 "test:update" "upd" ["test"] "custom" []).1.mems.filter
        (fun m => m.key == "test:update") =
      [{ id := "1", key := "test:update", value := "upd", memoryType := "custom",
         tags := ["test"], metadata := [], createdAt := 1, updatedAt := 1 }] ∧
    (internalSave exC3a.1 "test:update" "upd" ["test"] "custom" []).2 = "1" ∧
    (∀ m ∈ exC3a.1.mems, m.id ≠ (internalSave exC3a.1 "test:update" "upd" ["test"] "custom" []).2) ∧
    (internalSave exC3a.1 "test:update" "upd" ["test"] "custom" []).1.mems.Pairwise
      (fun a b => a.key ≠ b.key) := by
  have h := claim_c3_amended exC3a.1 "test:update" "upd" "custom" ["test"] []
    (by decide) (by decide)
  exact h

/-- Failing input for C5: record "k1" carries tag "a" and was saved before
the untagged record "k2", so "k2" is the most recently updated one. -/
def exC5store : Store :=
  (internalSave (internalSave Store.empty "k1" "v1" ["a"] "custom" []).1
    "k2" "v2" [] "custom" []).1

/-- C5 counterexample: the claim says `load(tags=["a"], limit=1)` returns
exactly the stored records carrying tag "a", capped at 1 — here the store
holds exactly one such record ("k1"), so the result should be that record.
The code applies `LIMIT` before the tag filter: the top-1 row by
`updated_at` is the untagged "k2", which the tag filter then drops, so the
result is empty even though a matching record exists. -/
theorem claim_c5_counterexample :
    exC5store.mems.countP (fun m => m.tags.contains "a") = 1 ∧
    (exC5store.mems.filter (fun m => m.tags.contains "a")).map (fun m => m.key) = ["k1"] ∧
    load exC5store none none none ["a"] 1 = [] := by
  decide

/-- C5 (amended): `load` ANDs the key/id/type filters, orders by
`updated_at` descending and caps at `limit` — and only then filters by
tags.  Hence every returned record is a stored record matching the filters
and carrying every requested tag, at most `limit` records are returned in
non-increasing `updated_at` order, and a load with no filters returns the
most recently updated records up to `limit`; but a record carrying every
requested tag may be missing when it is not among the `limit` most
recently updated records matching the other filters. -/
theorem claim_c5_amended (s : Store) (key memoryId memoryType : Option String)
    (tags : List String) (limit : Nat) :
    (load s key memoryId memoryType tags limit).length ≤ limit ∧
    (∀ m ∈ load s key memoryId memoryType tags limit,
      m ∈ s.mems ∧ matchesKIT m key memoryId memoryType = true ∧
        ∀ t ∈ tags, m.tags.contains t = true) ∧
    (load s key memoryId memoryType tags limit).Pairwise
      (fun a b => b.updatedAt ≤ a.updatedAt) ∧
    load s none none none [] limit =
      (sortByUpdatedDesc s.mems).take limit := by
  have hbase : ∀ m ∈ (sortByUpdatedDesc
      (s.mems.filter (fun m => matchesKIT m key memoryId memoryType))).take limit,
      m ∈ s.mems ∧ matchesKIT m key memoryId memoryType = true := by
    intro m hm
    have hm2 := mem_sortByUpdatedDesc.mp (List.mem_of_mem_take hm)
    exact ⟨(List.mem_filter.mp hm2).1, (List.mem_filter.mp hm2).2⟩
  have hpw : ((sortByUpdatedDesc
      (s.mems.filter (fun m => matchesKIT m key memoryId memoryType))).take
        limit).Pairwise (fun a b => b.updatedAt ≤ a.updatedAt) :=
    (sortByUpdatedDesc_pairwise _).sublist (List.take_sublist _ _)
  refine ⟨?_, ?_, ?_, ?_⟩
  · unfold load
    split
    · exact le_trans (List.length_take_le _ _) (le_refl _)
    · exact le_trans (List.length_filter_le _ _)
        (le_trans (List.length_take_le _ _) (le_refl _))
  · intro m hm
    unfold load at hm
    split at hm
    · rename_i htags
      rw [List.isEmpty_iff] at htags
      subst htags
      exact ⟨(hbase m hm).1, (hbase m hm).2, by simp⟩
    · have h1 := (List.mem_filter.mp hm).1
      have h2 := (List.mem_filter.mp hm).2
      rw [List.all_eq_true] at h2
      exact ⟨(hbase m h1).1, (hbase m h1).2, fun t ht => h2 t ht⟩
  · unfold load
    split
    · exact hpw
    · exact hpw.sublist (List.filter_sublist _)
  · unfold load
    simp [matchesKIT, truthyStr]

/-- C5 witness: the amended statement applied to the failing-input store
with the tag filter ["a"] and limit 1. -/
theorem claim_c5_witness :
    (load exC5store none none none ["a"] 1).length ≤ 1 ∧
    (∀ m ∈ load exC5store none none none ["a"] 1,
      m ∈ exC5store.mems ∧ matchesKIT m none none none = true ∧
        ∀ t ∈ ["a"], m.tags.contains t = true) ∧
    (load exC5store none none none ["a"] 1).Pairwise
      (fun a b => b.updatedAt ≤ a.updatedAt) ∧
    load exC5store none none none [] 1 = (sortByUpdatedDesc exC5store.mems).take 1 :=
  claim_c5_amended exC5store none none none ["a"] 1

/-- Example mutation payload used by the coordinator counterexamples. -/
def exWData : WData :=
  { key := "goal:2026-Q1", value := "Ship v1", memoryType := "goal",
    tags := ["important"], metadata := [] }

/-- C2 counterexample: inject a failure into the primary Record Store stage
of a synchronous write with all backends enabled.  The claim says the call
raises; instead `_write_sqlite` catches the exception and returns `False`,
the coordinator returns normally (`Except.ok`, never an error), and the
later Similarity Index and mirror stages are still attempted and succeed. -/
theorem claim_c2_counterexample :
    (writeSync { sqlite := some "disk error", vector := none, file := none }
      { sqlite := true, vector := true, file := true } "save" exWData World.empty).isOk
        = true ∧
    (match writeSync { sqlite := some "disk error", vector := none, file := none }
        { sqlite := true, vector := true, file := true } "save" exWData World.empty with
      | Except.ok p => p.2
      | Except.error _ => { sqlite := none, vector := none, file := none }) =
      { sqlite := some false, vector := some true, file := some true } := by
  decide

/-- C2 (amended): the synchronous fan-out never raises, whichever stage
fails: every stage of `_write_sync` wraps its body in a catch-all handler,
so a primary Record Store failure — like a Similarity Index or mirror-file
failure — is caught inside the stage and surfaces only as `False` in the
per-backend result map, the caller's operation is not aborted, and every
enabled later stage is still attempted (a stage is skipped exactly when its
backend is disabled). -/
theorem claim_c2_amended (faults : Faults) (b : Backends) (operation : String)
    (d : WData) (w : World) :
    ∃ w2 res, writeSync faults b operation d w = Except.ok (w2, res) ∧
      (res.sqlite.isSome = b.sqlite) ∧
      (res.vector.isSome = b.vector) ∧
      (res.file.isSome = b.file) ∧
      (b.sqlite = true → faults.sqlite.isSome → res.sqlite = some false) ∧
      (b.vector = true → faults.vector.isSome → res.vector = some false) ∧
      (b.file = true → faults.file.isSome → res.file = some false) := by
  refine ⟨_, _, rfl, ?_, ?_, ?_, ?_, ?_, ?_⟩
  · cases b.sqlite <;> simp
  · cases b.vector <;> simp
  · cases b.file <;> simp
  · intro hb hf
    cases hfs : faults.sqlite with
    | none => rw [hfs] at hf; simp at hf
    | some e => simp [hb, hfs, writeSqlite]
  · intro hb hf
    cases hfs : faults.vector with
    | none => rw [hfs] at hf; simp at hf
    | some e => simp [hb, hfs, writeVector]
  · intro hb hf
    cases hfs : faults.file with
    | none => rw [hfs] at hf; simp at hf
    | some e => simp [hb, hfs, writeFile]

/-- C2 witness: the amended statement applied to a write whose three stages
all fail. -/
theorem claim_c2_witness :
    ∃ w2 res, writeSync { sqlite := some "e1", vector := some "e2", file := some "e3" }
        { sqlite := true, vector := true, file := true } "save" exWData World.empty =
        Except.ok (w2, res) ∧ res.sqlite = some false ∧ res.vector = some false ∧
        res.file = some false := by
  obtain ⟨w2, res, heq, -, -, -, h1, h2, h3⟩ :=
    claim_c2_amended { sqlite := some "e1", vector := some "e2", file := some "e3" }
      { sqlite := true, vector := true, file := true } "save" exWData World.empty
  exact ⟨w2, res, heq, h1 rfl rfl, h2 rfl rfl, h3 rfl rfl⟩

/-- World after a coordinator save with only the Record Store backend
enabled (Similarity Index and mirror disabled), used against C4. -/
def exC4world : World :=
  match writeSync Faults.clear { sqlite := true, vector := false, file := false }
      "save" exWData World.empty with
  | Except.ok p => p.1
  | Except.error _ => World.empty

/-- C4 counterexample: with the Record Store backend enabled and the
Similarity Index backend disabled, the claim says a coordinated save never
appears in `search(mode=semantic)` results and leaves the disabled
backend's state unchanged.  In the code the Record Store stage calls the
unified save, whose `_internal_save` itself adds the document to the
"memories" vector collection — so after the save the vector collection has
gained the entry (its state changed) and a semantic search returns the
saved record. -/
theorem claim_c4_counterexample :
    ((alistGet? World.empty.store.colls "memories").getD Coll.empty).ids = [] ∧
    ((alistGet? exC4world.store.colls "memories").getD Coll.empty).ids = ["0"] ∧
    (search exC4world.store (some "Ship") none [] none SMode.semantic 10).map
      (fun r => r.1.key) = ["goal:2026-Q1"] := by
  decide

/-- C4 (amended): with the Record Store backend enabled and the Similarity
Index backend disabled, the coordinator does skip its own Similarity Index
stage (and the mirror stage when disabled) and the saved record does appear
in `load(key=...)` — but the disabled index's state is NOT left unchanged
and the record is not kept out of semantic search: the Record Store stage's
save appends the record's document to the "memories" vector collection as a
side effect, from where semantic search can return it. -/
theorem claim_c4_amended (w : World) (d : WData) (hkey : d.key ≠ "") :
    ∃ w2 res, writeSync Faults.clear { sqlite := true, vector := false, file := false }
        "save" d w = Except.ok (w2, res) ∧
      res.sqlite = some true ∧ res.vector = none ∧ res.file = none ∧
      ((alistGet? w2.store.colls "memories").getD Coll.empty).ids =
        ((alistGet? w.store.colls "memories").getD Coll.empty).ids ++
          [toString w.store.nextId] ∧
      (load w2.store (some d.key) none none [] 100).map (fun m => (m.key, m.value)) =
        [(d.key, d.value)] ∧
      w2.mirror = w.mirror := by
  refine ⟨{ store := (internalSave w.store d.key d.value d.tags
      (if validMemoryTypes.contains d.memoryType then d.memoryType else "custom")
      d.metadata).1, mirror := w.mirror },
    { sqlite := some ((toString w.store.nextId) != ""), vector := none, file := none },
    rfl, ?_, rfl, rfl, ?_, ?_, rfl⟩
  · simp [bne_iff_ne, natToStringNeEmpty]
  · show ((alistGet? (vectorAdd w.store.colls "memories" (toString w.store.nextId)
        (d.key ++ ": " ++ d.value.take 500) _) "memories").getD Coll.empty).ids = _
    exact vectorAdd_ids w.store.colls "memories" (toString w.store.nextId) _ _
  · show (load (internalSave w.store d.key d.value d.tags
        (if validMemoryTypes.contains d.memoryType then d.memoryType else "custom")
        d.metadata).1 (some d.key) none none [] 100).map (fun m => (m.key, m.value)) = _
    rw [load_key_after_internalSave w.store d.key d.value _ d.tags d.metadata hkey]
    simp

/-- C4 witness: the amended statement applied to the example save against
the empty world. -/
theorem claim_c4_witness :
    ∃ w2 res, writeSync Faults.clear { sqlite := true, vector := false, file := false }
        "save" exWData World.empty = Except.ok (w2, res) ∧
      res.sqlite = some true ∧ res.vector = none ∧ res.file = none ∧
      ((alistGet? w2.store.colls "memories").getD Coll.empty).ids =
        ((alistGet? World.empty.store.colls "memories").getD Coll.empty).ids ++
          [toString World.empty.store.nextId] ∧
      (load w2.store (some exWData.key) none none [] 100).map (fun m => (m.key, m.value)) =
        [(exWData.key, exWData.value)] ∧
      w2.mirror = World.empty.mirror :=
  claim_c4_amended World.empty exWData (by decide)

/-- First-match lookup of a file by name in the WAL directory. -/
def walGet? (dir : List WalFile) (n : String) : Option WalFile :=
  match dir with
  | [] => none
  | f :: rest => if f.name = n then some f else walGet? rest n

theorem walGet_walWrite_self (dir : List WalFile) (f : WalFile) :
    walGet? (walWrite dir f) f.name = some f := by
  induction dir with
  | nil => simp [walWrite, walGet?]
  | cons g rest ih =>
    simp only [walWrite]
    split
    · simp [walGet?]
    · rename_i hne
      simp only [walGet?]
      rw [if_neg hne]
      exact ih

theorem walGet_walWrite_ne (dir : List WalFile) (f : WalFile) (n : String)
    (h : n ≠ f.name) :
    walGet? (walWrite dir f) n = walGet? dir n := by
  induction dir with
  | nil =>
    simp only [walWrite, walGet?]
    rw [if_neg (fun he => h he.symm)]
  | cons g rest ih =>
    simp only [walWrite]
    split
    · rename_i heq
      simp only [walGet?]
      rw [if_neg (fun he => h he.symm), if_neg (heq ▸ fun he => h he.symm)]
    · simp only [walGet?]
      split
      · rfl
      · exact ih

theorem charsHavePre_self_append (p t : List Char) :
    charsHavePre p (p ++ t) = true := by
  induction p with
  | nil => simp [charsHavePre]
  | cons a ps ih => simp [charsHavePre, ih]

/-- Any string obtained by appending `y` ends with `y`. -/
theorem strEnds_append (x y : String) : strEnds (x ++ y) y = true := by
  unfold strEnds
  have hdata : (x ++ y).data = x.data ++ y.data := rfl
  show charsHavePre y.data.reverse (x ++ y).data.reverse = true
  rw [hdata, List.reverse_append]
  exact charsHavePre_self_append _ _

/-- C6 counterexample: `WALHandler.log` has no `return` statement — it
returns `None`, not the assigned sequence id.  On the empty WAL state the
assigned composite id is "20260220_001" (counter 1), yet the call's return
value is `none`. -/
theorem claim_c6_counterexample :
    (walLog WalState.empty "20260220" "CREATE" (some "p") (some "d")).2 = none ∧
    (walLog WalState.empty "20260220" "CREATE" (some "p") (some "d")).1.sequence = 1 ∧
    seqString "20260220" 1 = "20260220_001" ∧
    (walLog WalState.empty "20260220" "CREATE" (some "p") (some "d")).2 ≠
      some (seqString "20260220" 1) := by
  decide

/-- C6 (amended): each `log` call bumps the in-memory counter by exactly
one — so the assigned sequence is strictly greater than the previous one,
and by induction than every earlier one of the same instance — writes one
entry file named by the composite sequence id and holding the entry,
persists the counter in the separate non-entry file `_sequence.txt`, and
leaves every other file unchanged; but it returns `None` to the caller,
not the assigned sequence id. -/
theorem claim_c6_amended (s : WalState) (date operation : String)
    (path data : Option String) :
    (walLog s date operation path data).1.sequence = s.sequence + 1 ∧
    s.sequence < (walLog s date operation path data).1.sequence ∧
    (walLog s date operation path data).2 = none ∧
    walGet? (walLog s date operation path data).1.dir
        (seqString date (s.sequence + 1) ++ ".log") =
      some { name := seqString date (s.sequence + 1) ++ ".log",
             entry := some { op := operation, path := path, data := data }, raw := "" } ∧
    walGet? (walLog s date operation path data).1.dir "_sequence.txt" =
      some { name := "_sequence.txt", entry := none, raw := toString (s.sequence + 1) } ∧
    isLogName (seqString date (s.sequence + 1) ++ ".log") = true ∧
    isLogName "_sequence.txt" = false ∧
    (∀ n, n ≠ seqString date (s.sequence + 1) ++ ".log" → n ≠ "_sequence.txt" →
      walGet? (walLog s date operation path data).1.dir n = walGet? s.dir n) := by
  have hlog : isLogName (seqString date (s.sequence + 1) ++ ".log") = true :=
    strEnds_append _ _
  have hseqname : isLogName "_sequence.txt" = false := by decide
  have hne : (seqString date (s.sequence + 1) ++ ".log") ≠ "_sequence.txt" := by
    intro h
    rw [h] at hlog
    rw [hlog] at hseqname
    exact absurd hseqname (by decide)
  refine ⟨rfl, Nat.lt_succ_self _, rfl, ?_, ?_, hlog, hseqname, ?_⟩
  · show walGet? (walWrite (walWrite s.dir _) _) _ = _
    rw [walGet_walWrite_ne _ _ _ hne]
    exact walGet_walWrite_self _ _
  · exact walGet_walWrite_self _ _
  · intro n h1 h2
    show walGet? (walWrite (walWrite s.dir _) _) n = _
    rw [walGet_walWrite_ne _ _ _ h2, walGet_walWrite_ne _ _ _ h1]

/-- C6 witness: the amended statement instantiated on the empty WAL state,
with the frame conjunct applied to the unrelated name "other.txt". -/
theorem claim_c6_witness :
    (walLog WalState.empty "20260220" "CREATE" (some "p") (some "d")).1.sequence = 0 + 1 ∧
    walGet? (walLog WalState.empty "20260220" "CREATE" (some "p") (some "d")).1.dir
        "other.txt" = walGet? WalState.empty.dir "other.txt" := by
  have h := claim_c6_amended WalState.empty "20260220" "CREATE" (some "p") (some "d")
  exact ⟨h.1, h.2.2.2.2.2.2.2 "other.txt" (by decide) (by decide)⟩

/-- The effect of one parsed entry on one path: `some v` when the entry
writes (`some (some d)`) or deletes (`some none`) that path, `none` when
the entry leaves the path alone. -/
def entryEff (e : WEntry) (p : String) : Option (Option String) :=
  if e.op == "CREATE" || e.op == "UPDATE" then
    if truthyStr e.data && truthyStr e.path then
      (if e.path.getD "" = p then some (some (e.data.getD "")) else none)
    else none
  else if e.op == "DELETE" then
    if truthyStr e.path then (if e.path.getD "" = p then some none else none)
    else none
  else none

/-- The effect of one WAL file on one path, accounting for the
underscore-skip and for corrupt entries. -/
def fileEff (f : WalFile) (p : String) : Option (Option String) :=
  if strStarts f.name "_" then none
  else match f.entry with
    | some e => entryEff e p
    | none => none

/-- The state-transforming part of `replayStep`. -/
def fileStep (fs : FS) (f : WalFile) : FS :=
  if strStarts f.name "_" then fs
  else match f.entry with
    | some e => applyOperation fs e
    | none => fs

/-- The last effective operation of a file list on a path (later files
override earlier ones). -/
def lastEff : List WalFile → String → Option (Option String)
  | [], _ => none
  | f :: L, p =>
    match lastEff L p with
    | some v => some v
    | none => fileEff f p

theorem applyOperation_eval (fs : FS) (e : WEntry) (p : String) :
    applyOperation fs e p = (entryEff e p).getD (fs p) := by
  unfold applyOperation entryEff fsSave fsDelete
  by_cases h1 : (e.op == "CREATE" || e.op == "UPDATE") = true
  · simp only [h1, if_true]
    by_cases h2 : (truthyStr e.data && truthyStr e.path) = true
    · simp only [h2, if_true]
      by_cases h3 : e.path.getD "" = p
      · simp [h3]
      · have h3a : ¬ p = e.path.getD "" := fun h => h3 h.symm
        simp [h3, h3a]
    · simp only [Bool.not_eq_true] at h2
      simp [h2]
  · simp only [Bool.not_eq_true] at h1
    simp only [h1, Bool.false_eq_true, if_false]
    by_cases h4 : (e.op == "DELETE") = true
    · simp only [h4, if_true]
      by_cases h5 : truthyStr e.path = true
      · simp only [h5, Bool.and_true, if_true]
        by_cases h6 : e.path.getD "" = p
        · simp [h6]
        · have h6a : ¬ p = e.path.getD "" := fun h => h6 h.symm
          simp [h6, h6a]
      · simp only [Bool.not_eq_true] at h5
        simp [h5]
    · simp only [Bool.not_eq_true] at h4
      simp [h4]

theorem fileStep_eval (fs : FS) (f : WalFile) (p : String) :
    fileStep fs f p = (fileEff f p).getD (fs p) := by
  unfold fileStep fileEff
  by_cases h1 : strStarts f.name "_" = true
  · simp [h1]
  · simp only [Bool.not_eq_true] at h1
    cases hf : f.entry with
    | none => simp [h1, hf]
    | some e => simp [h1, hf, applyOperation_eval]

theorem foldl_fileStep_eval (L : List WalFile) (fs : FS) (p : String) :
    L.foldl fileStep fs p = (lastEff L p).getD (fs p) := by
  induction L generalizing fs with
  | nil => rfl
  | cons f L ih =>
    show L.foldl fileStep (fileStep fs f) p = _
    rw [ih]
    cases h : lastEff L p with
    | some v => simp [lastEff, h]
    | none => simp [lastEff, h, fileStep_eval]

theorem replayStep_eq (fs : FS) (c : Nat) (f : WalFile) :
    replayStep (fs, c) f =
      (fileStep fs f, if (!strStarts f.name "_" && f.entry.isSome) = true then c + 1 else c) := by
  unfold replayStep fileStep
  by_cases h1 : strStarts f.name "_" = true
  · simp [h1]
  · simp only [Bool.not_eq_true] at h1
    cases hf : f.entry <;> simp [h1, hf]

theorem foldl_replayStep_fst (L : List WalFile) (fs : FS) (c : Nat) :
    (L.foldl replayStep (fs, c)).1 = L.foldl fileStep fs := by
  induction L generalizing fs c with
  | nil => rfl
  | cons f L ih =>
    show (L.foldl replayStep (replayStep (fs, c) f)).1 = L.foldl fileStep (fileStep fs f)
    rw [replayStep_eq]
    exact ih _ _

theorem foldl_replayStep_snd (L : List WalFile) (fs : FS) (c : Nat) :
    (L.foldl replayStep (fs, c)).2 =
      c + L.countP (fun f => !strStarts f.name "_" && f.entry.isSome) := by
  induction L generalizing fs c with
  | nil => simp
  | cons f L ih =>
    show (L.foldl replayStep (replayStep (fs, c) f)).2 = _
    rw [replayStep_eq, ih, List.countP_cons]
    by_cases h : (!strStarts f.name "_" && f.entry.isSome) = true
    · rw [if_pos h, h, if_pos rfl]
      omega
    · rw [if_neg h]
      rw [Bool.not_eq_true] at h
      rw [h, if_neg (by decide)]
      omega

/-- C8: WAL replay is idempotent with respect to the final store state:
for every WAL directory, replaying it a second time over the store produced
by the first replay yields exactly the store of the first replay (both
replays read the same entry list, re-applying a CREATE/UPDATE overwrites
the same path with the same payload, and re-applying a DELETE on an
already-absent path is a no-op), starting from a fresh store. -/
theorem claim_c8 (s : WalState) :
    (walReplay s (walReplay s FS.empty).2.1).2.1 = (walReplay s FS.empty).2.1 := by
  funext p
  show ((insSortBy nameLe (s.dir.filter (fun f => isLogName f.name))).foldl replayStep
      ((walReplay s FS.empty).2.1, 0)).1 p = _
  rw [foldl_replayStep_fst, foldl_fileStep_eval]
  show _ = ((insSortBy nameLe (s.dir.filter (fun f => isLogName f.name))).foldl replayStep
      (FS.empty, 0)).1 p
  rw [foldl_replayStep_fst, foldl_fileStep_eval]
  have hfirst : (walReplay s FS.empty).2.1 p =
      (lastEff (insSortBy nameLe (s.dir.filter (fun f => isLogName f.name))) p).getD
        (FS.empty p) := by
    show ((insSortBy nameLe (s.dir.filter (fun f => isLogName f.name))).foldl replayStep
        (FS.empty, 0)).1 p = _
    rw [foldl_replayStep_fst, foldl_fileStep_eval]
  cases h : lastEff (insSortBy nameLe (s.dir.filter (fun f => isLogName f.name))) p with
  | some v => simp [h]
  | none => simp [h, hfirst]

/-- C10: after `replay` returns, the WAL directory holds no entry files at
all — every `*.log` file not starting with an underscore is removed, the
corrupt ones included (they are skipped during application but still
unlinked, not kept for a retry) — only files such as the underscore-named
sequence counter or non-log files remain, and the returned count equals the
number of entry files that parsed and applied (a parseable entry always
applies without error; corrupt ones are skipped and not counted). -/
theorem claim_c10 (s : WalState) (fs : FS) :
    (∀ f ∈ (walReplay s fs).1.dir, isLogName f.name = true → strStarts f.name "_" = true) ∧
    (∀ f ∈ s.dir, isLogName f.name = true → strStarts f.name "_" = false →
      f ∉ (walReplay s fs).1.dir) ∧
    (walReplay s fs).2.2 =
      s.dir.countP (fun f => isLogName f.name && !strStarts f.name "_" && f.entry.isSome) := by
  refine ⟨?_, ?_, ?_⟩
  · intro f hf hlog
    have h2 := (List.mem_filter.mp hf).2
    rw [hlog] at h2
    simpa using h2
  · intro f hf hlog hus hmem
    have h2 := (List.mem_filter.mp hmem).2
    rw [hlog, hus] at h2
    simp at h2
  · show ((insSortBy nameLe (s.dir.filter (fun f => isLogName f.name))).foldl replayStep
        (fs, 0)).2 = _
    rw [foldl_replayStep_snd]
    rw [insSortBy_countP, List.countP_filter]
    simp only [Nat.zero_add]
    congr 1
    funext f
    cases h1 : isLogName f.name <;> cases h2 : strStarts f.name "_" <;>
      cases h3 : f.entry.isSome <;> simp [h1, h2, h3]

/-- Example WAL directory for the C10 witness: one well-formed entry, one
corrupt entry, and the sequence-counter file. -/
def exC10wal : WalState :=
  { sequence := 2,
    dir := [{ name := "20260101_001.log", entry := some ⟨"CREATE", some "p", some "d"⟩, raw := "" },
            { name := "20260101_002.log", entry := none, raw := "garbage" },
            { name := "_sequence.txt", entry := none, raw := "2" }] }

/-- C10 witness: a directory holding one well-formed entry, one corrupt
entry and the sequence-counter file: both entry files are gone after
replay, and the count is 1. -/
theorem claim_c10_witness :
    (∀ f ∈ (walReplay exC10wal FS.empty).1.dir,
      isLogName f.name = true → strStarts f.name "_" = true) ∧
    ({ name := "20260101_002.log", entry := none, raw := "garbage" } : WalFile) ∉
      (walReplay exC10wal FS.empty).1.dir ∧
    (walReplay exC10wal FS.empty).2.2 = 1 := by
  have h := claim_c10 exC10wal FS.empty
  refine ⟨h.1, ?_, ?_⟩
  · exact h.2.1 { name := "20260101_002.log", entry := none, raw := "garbage" }
      (by decide) (by decide) (by decide)
  · rw [h.2.2]
    decide

/-- Once `cleanup` has activated, its stop-at-90% break can never fire,
because it re-tests the pre-loop `total_size`, which is never updated as
files are deleted: the loop consumes the whole list. -/
theorem cleanupLoop_all (totalSize maxBytes : Nat) (h : 9 * maxBytes ≤ 10 * totalSize)
    (l : List AFile) : cleanupLoop totalSize maxBytes l = l := by
  induction l with
  | nil => rfl
  | cons f rest ih =>
    unfold cleanupLoop
    rw [if_neg (by omega), ih]

/-- Failing input for C7: three 60-byte files under conversations/raw
against a 100-byte budget.  Spec-conformant behavior stops after two
deletions (usage 60 < 90% of 100); the code deletes all three. -/
def exC7files : List AFile :=
  [{ path := "conversations/raw/a.json", size := 60, mtime := 1 },
   { path := "conversations/raw/b.json", size := 60, mtime := 2 },
   { path := "conversations/raw/c.json", size := 60, mtime := 3 }]

/-- C7: the claim says cleanup stops deleting as soon as usage drops below
90% of the budget, and leaves the tree unchanged whenever total size is at
most the budget.  The code is wrong on both counts: (general part) whenever
the total reaches the budget, cleanup deletes EVERY deletable
(conversations/raw/*.json) file — the 90% break compares the stale
pre-deletion total, so it never fires; and at total exactly equal to the
budget (`<`, not `≤`) cleanup still activates and deletes everything.  On
the failing input it deletes 3 files instead of stopping after 2. -/
theorem claim_c7_code_bug :
    (∀ (files : List AFile) (maxBytes : Nat),
      (cleanup files maxBytes).2.deletedFiles =
        if (files.map (fun f => f.size)).sum < maxBytes then 0
        else (files.filter (fun f => isConvRawJson f.path)).length) ∧
    (cleanup exC7files 100).2 =
      { deletedFiles := 3, freedSpace := 180,
        oldestFile := some "conversations/raw/a.json" } ∧
    (exC7files.map (fun f => f.size)).sum = 180 ∧
    (cleanup exC7files 180).2.deletedFiles = 3 := by
  refine ⟨?_, by decide, by decide, by decide⟩
  intro files maxBytes
  by_cases h : (files.map (fun f => f.size)).sum < maxBytes
  · have he : cleanup files maxBytes = (files, ⟨0, 0, none⟩) := by
      simp only [cleanup]
      rw [if_pos h]
    rw [he, if_pos h]
  · have he : (cleanup files maxBytes).2.deletedFiles =
        (cleanupLoop ((files.map (fun f => f.size)).sum) maxBytes
          (insSortBy (fun a b => decide (a.mtime ≤ b.mtime))
            (files.filter (fun f => isConvRawJson f.path)))).length := by
      simp only [cleanup]
      rw [if_neg h]
    rw [he, cleanupLoop_all _ _ (by omega) _, (insSortBy_perm _ _).length_eq, if_neg h]

/-- C9: similarity search never returns more than `k` results; the results
are sorted by non-decreasing Euclidean distance between each entry's stored
feature vector and the query's feature vector (the model carries squared
distances over ℤ, so the statement orders their real square roots, which
are the Euclidean distances, and each returned distance is the distance
from a vector stored in the searched collection); a missing collection and
an empty collection both yield the distinguishable absent result `none`
rather than an error. -/
theorem claim_c9 (cs : Colls) (collection query : String) (k : Nat) :
    (alistGet? cs collection = none → vectorSearch cs collection query k = none) ∧
    (∀ c, alistGet? cs collection = some c → c.vectors = [] →
      vectorSearch cs collection query k = none) ∧
    (∀ res, vectorSearch cs collection query k = some res →
      res.ids.length ≤ k ∧
      List.Sorted (· ≤ ·) (res.distances.map (fun d : Int => Real.sqrt ((d : ℝ)))) ∧
      (∀ d ∈ res.distances, ∃ v ∈ ((alistGet? cs collection).getD Coll.empty).vectors,
        d = distSq v (charFreqVector query))) := by
  refine ⟨?_, ?_, ?_⟩
  · intro h
    simp [vectorSearch, h]
  · intro c hc hv
    simp [vectorSearch, hc, hv]
  · intro res h
    cases hc : alistGet? cs collection with
    | none => rw [vectorSearch.eq_def, hc] at h; exact absurd h (by simp)
    | some c =>
      rw [vectorSearch.eq_def, hc] at h
      dsimp only at h
      by_cases hv : c.vectors = []
      · rw [if_pos hv] at h
        exact absurd h (by simp)
      · rw [if_neg hv] at h
        have hres := (Option.some_inj.mp h).symm
        subst hres
        set qv := charFreqVector query with hqv
        set ds := c.vectors.map (fun v => distSq v qv) with hds
        have hsorted : (argsortTake ds k).Pairwise (fun a b => a.2 ≤ b.2) := by
          have hp := @insSortBy_pairwise (Nat × Int)
            (fun a b : Nat × Int => decide (a.2 ≤ b.2))
            (fun a b => by
              rcases Int.le_total a.2 b.2 with hab | hab
              · exact Or.inl (decide_eq_true hab)
              · exact Or.inr (decide_eq_true hab))
            (fun a b c h1 h2 =>
              decide_eq_true (le_trans (of_decide_eq_true h1) (of_decide_eq_true h2)))
            (List.zip (List.range ds.length) ds)
          exact ((hp.sublist (List.take_sublist _ _)).imp fun h => of_decide_eq_true h)
        refine ⟨?_, ?_, ?_⟩
        · show ((argsortTake ds k).map _).length ≤ k
          rw [List.length_map]
          exact le_trans (List.length_take_le _ _) (le_refl _)
        · show List.Sorted (· ≤ ·)
            (((argsortTake ds k).map (fun p => p.2)).map (fun d : Int => Real.sqrt ((d : ℝ))))
          rw [List.map_map]
          exact List.pairwise_map.mpr (hsorted.imp fun h =>
            Real.sqrt_le_sqrt (by exact_mod_cast h))
        · intro d hd
          show ∃ v ∈ ((some c).getD Coll.empty).vectors, d = distSq v qv
          simp only [Option.getD_some]
          have hd2 : ∃ pr ∈ argsortTake ds k, pr.2 = d := by
            rcases List.mem_map.mp hd with ⟨pr, hpr, hpd⟩
            exact ⟨pr, hpr, hpd⟩
          rcases hd2 with ⟨pr, hpr, hpd⟩
          have hpr2 : pr ∈ List.zip (List.range ds.length) ds :=
            mem_insSortBy.mp (List.mem_of_mem_take hpr)
          have hds2 : pr.2 ∈ ds := by
            obtain ⟨i, x⟩ := pr
            exact (List.of_mem_zip hpr2).2
          rw [hds] at hds2
          rcases List.mem_map.mp hds2 with ⟨v, hv2, hvd⟩
          exact ⟨v, hv2, by rw [← hpd, ← hvd]⟩

/-- Example collections for the C9 witness: two documents in "memories". -/
def exC9colls : Colls :=
  vectorAdd (vectorAdd Colls.init "memories" "0" "alpha" []) "memories" "1" "beta" []

/-- The concrete search result used by the C9 witness. -/
def exC9res : VSearchRes :=
  (vectorSearch exC9colls "memories" "query" 1).getD ⟨[], [], [], []⟩

/-- C9 witness: the theorem applied to a missing collection (absent result)
and to a two-document collection searched with k = 1. -/
theorem claim_c9_witness :
    vectorSearch exC9colls "missing" "query" 1 = none ∧
    exC9res.ids.length ≤ 1 ∧
    List.Sorted (· ≤ ·) (exC9res.distances.map (fun d : Int => Real.sqrt ((d : ℝ)))) ∧
    (∀ d ∈ exC9res.distances,
      ∃ v ∈ ((alistGet? exC9colls "memories").getD Coll.empty).vectors,
        d = distSq v (charFreqVector "query")) := by
  have h0 := (claim_c9 exC9colls "missing" "query" 1).1 (by decide)
  have h3 := (claim_c9 exC9colls "memories" "query" 1).2.2 exC9res (by rfl)
  exact ⟨h0, h3.1, h3.2.1, h3.2.2⟩

end Xuelema

